import Mathlib

/-
  Verification of the `test_utils` repository (src/tc_decorator.py).

  The file shallowly embeds the decorator library: Python dictionaries become
  insertion-ordered association lists over a value type `DictVal`, the function
  object with its scratch attributes (`tc_test_cases`, `tc_additional_arguments`,
  `__doc__`, `__test__`) becomes the structure `FuncState`, and each generated
  test callable becomes a `TestUnit` that records the data the source attaches
  to it.  `deepcopy` is the identity here because every embedded value is
  immutable, and the frame-locals injection performed by
  `_create_functions_from_testcases` is modelled by returning the list of
  created units instead of writing them into a caller scope.  The value
  universe is scalars plus one level of list: enough for the reserved
  positionals entry and for every argument shape the library manipulates.
-/

namespace TcDecorator

/-- Scalar Python values appearing as test-case arguments. -/
inductive Val : Type where
  | vint : Int → Val
  | vstr : String → Val
  | vbool : Bool → Val
  deriving DecidableEq, Repr

/-- A value stored in an argument dictionary: a scalar, or a list of scalars
(the reserved `positionals` entry is a list). -/
inductive DictVal : Type where
  | scalar : Val → DictVal
  | vlist : List Val → DictVal
  deriving DecidableEq, Repr

/-- A Python dictionary, as an insertion-ordered association list with
pairwise-distinct keys (the operations below preserve that invariant exactly
as `dict` does). -/
abbrev PyDict := List (String × DictVal)

/-- Python assignment `d[k] = v` on a dict: replace the value in place if the key is
present, otherwise append the new binding. -/
def dictSet : PyDict → String → DictVal → PyDict
  | [], k, v => [(k, v)]
  | (k0, v0) :: rest, k, v =>
      if k0 = k then (k0, v) :: rest else (k0, v0) :: dictSet rest k v

/-- Python lookup `d[k]` on a dict. -/
def dictGet : PyDict → String → Option DictVal
  | [], _ => none
  | (k0, v0) :: rest, k => if k0 = k then some v0 else dictGet rest k

/-- Python deletion `del d[k]` on a dict (removes every binding of `k`; dicts built by
this library bind each key at most once). -/
def dictRemove : PyDict → String → PyDict
  | [], _ => []
  | (k0, v0) :: rest, k =>
      if k0 = k then dictRemove rest k else (k0, v0) :: dictRemove rest k

/-- Python update `dst.update(src)`: fold `dictSet` over the entries of `src` in order. -/
def dictUpdate (dst src : PyDict) : PyDict :=
  src.foldl (fun acc kv => dictSet acc kv.1 kv.2) dst

/-- Function `merge_dicts` (tc_decorator.py lines 125-129): start from the empty
dict and `update` with each argument left to right. -/
def merge_dicts (ds : List PyDict) : PyDict :=
  ds.foldl dictUpdate []

/-- Python `itertools.product` restricted to lists, in the iteration
order of the source: the first group varies slowest, the last group varies fastest. -/
def pyProduct {α : Type} : List (List α) → List (List α)
  | [] => [[]]
  | g :: gs => g.flatMap (fun x => (pyProduct gs).map (fun t => x :: t))

/-- One decimal digit as a character. -/
def digitChar : Nat → Char
  | 0 => '0' | 1 => '1' | 2 => '2' | 3 => '3' | 4 => '4'
  | 5 => '5' | 6 => '6' | 7 => '7' | 8 => '8' | 9 => '9'
  | _ => '*'

/-- Little-endian decimal digits, with explicit fuel so that the definition is
structural (the fuel `n` always suffices because `n / 10 < n` for `n > 0`). -/
def digitsFuel : Nat → Nat → List Nat
  | _, 0 => []
  | 0, _ => []
  | fuel + 1, n => (n % 10) :: digitsFuel fuel (n / 10)

/-- Little-endian decimal digits of `n` (empty for `0`). -/
def digitsLE (n : Nat) : List Nat := digitsFuel n n

/-- Big-endian decimal digit list of `n`, zero-padded on the left to width 3:
the digit sequence printed by the Python format specifier `03d`. -/
def pad3Digits (n : Nat) : List Nat :=
  List.replicate (3 - (digitsLE n).length) 0 ++ (digitsLE n).reverse

/-- The string Python prints for `n` under the format specifier `03d`. -/
def pad3 (n : Nat) : String := String.mk ((pad3Digits n).map digitChar)

/-- Python rendering `str(n)` of a natural number. -/
def natRepr (n : Nat) : String :=
  if n = 0 then "0" else String.mk ((digitsLE n).reverse.map digitChar)

/-- Whether `c` matches the regex class `[a-zA-Z0-9_]`. -/
def isSafeChar (c : Char) : Bool := c.isAlphanum || c = '_'

/-- One pass of `re.sub` with pattern `[^a-zA-Z0-9_]+` and replacement `_`
over a character list: each maximal run of rejected characters becomes a single
underscore.  Fuel is the length of the list, which always suffices. -/
def sanitizeFuel : Nat → List Char → List Char
  | _, [] => []
  | 0, _ => []
  | fuel + 1, c :: cs =>
      if isSafeChar c then c :: sanitizeFuel fuel cs
      else '_' :: sanitizeFuel fuel (cs.dropWhile (fun d => !(isSafeChar d)))

/-- Function `to_safe_name` (tc_decorator.py lines 156-157). -/
def to_safe_name (s : String) : String :=
  String.mk (sanitizeFuel s.data.length s.data)

/-- Python test `description.startswith` applied to the literal prefix word test. -/
def descHasTestPre (s : String) : Bool :=
  List.isPrefixOf ("test".data) s.data

/-- The name produced by the closure returned by `get_custom_name_func`
(tc_decorator.py lines 132-142); it depends only on the description and on the
zero-based case index. -/
def get_custom_name (description : String) (param_num : Nat) : String :=
  (if descHasTestPre description then "" else "test_")
    ++ to_safe_name description ++ "__case_" ++ pad3 param_num

/-- The doc produced by the closure returned by `get_custom_doc_func`
(tc_decorator.py lines 145-153): description, index/total fraction and an
empty parameter-rendering placeholder. -/
def get_custom_doc (description : String) (nb_testcases : Nat) (param_num : Nat) : String :=
  description ++ " (" ++ pad3 param_num ++ "/" ++ natRepr nb_testcases
    ++ ") parameters: "

/-- The function object under decoration: its two scratch layer stacks, its
doc string and its `__test__` discoverability attribute (`none` means the
attribute or doc is absent). -/
structure FuncState where
  tc_test_cases : Option (List PyDict) := none
  tc_additional_arguments : Option (List (List PyDict)) := none
  doc : Option String := none
  test_attr : Option Bool := none
  deriving DecidableEq, Repr, Inhabited

/-- One materialized test callable, with the data the source attaches to it.
`doc` is the real doc string `__doc__` (copied from the wrapped function by
`functools.wraps`); `doc_attr` is the separate `__doc` attribute assigned at
tc_decorator.py line 72. -/
structure TestUnit where
  name : String
  doc : Option String
  doc_attr : String
  test_attr : Option Bool
  tags : List String
  positionals : List Val
  kwargs : PyDict
  deriving DecidableEq, Repr, Inhabited

/-- Extraction of the reserved positionals entry, tc_decorator.py line 62
(tuple of the value at the reserved key).  Every dict
that reaches this point was merged from a case dict, which always carries the
key with a list value; the source would raise on any other shape, and that
branch is totalized to `[]` here. -/
def getPositionals (d : PyDict) : List Val :=
  match dictGet d "__positionals" with
  | some (DictVal.vlist l) => l
  | _ => []

/-- Function `_create_function_from_testcase` (tc_decorator.py lines 61-77): strip the
positionals entry, wrap the implementation, rename, build the doc text and
attach the tags.  `functools.wraps` copies `__doc__` and `__dict__` (hence the
current `__test__` value) from the wrapped function onto the wrapper. -/
def _create_function_from_testcase (test_case : PyDict) (test_function : FuncState)
    (name : String) (doc : String) (tags : List String) : TestUnit :=
  let old_doc :=
    match test_function.doc with
    | some d => if d = "" then "" else " (" ++ d ++ ")"
    | none => ""
  { name := name
    doc := test_function.doc
    doc_attr := doc ++ old_doc
    test_attr := test_function.test_attr
    tags := tags
    positionals := getPositionals test_case
    kwargs := dictRemove test_case "__positionals" }

/-- The wrapper body of `new_function` (tc_decorator.py lines 66-67): the unit called with
the runner-supplied positionals forwards to the original implementation the
pair (positional argument list, keyword argument dict). -/
def TestUnit.invoke (u : TestUnit) (runner_args : List Val) : List Val × PyDict :=
  (runner_args ++ u.positionals, u.kwargs)

/-- Function `_create_functions_from_testcases` (tc_decorator.py lines 45-58): set the
original flag `__test__` to `True`, create one unit per test case (the naming and
doc closures are `get_custom_name` and `get_custom_doc` applied to the
description of the expander, see lines 36-41), then set `__test__` to `False`.
Injection into the frame locals of the caller is modelled by returning the units. -/
def _create_functions_from_testcases (test_function : FuncState)
    (test_cases : List PyDict) (description : String) (tags : List String) :
    List TestUnit × FuncState :=
  let f1 : FuncState := { test_function with test_attr := some true }
  let units := test_cases.enum.map (fun p =>
    _create_function_from_testcase p.2 f1
      (get_custom_name description p.1)
      (get_custom_doc description test_cases.length p.1) tags)
  (units, { f1 with test_attr := some false })

/-- The product-and-merge step of `TestExpander.__call__` (tc_decorator.py
lines 22-35): reverse the case stack (defaulting to one implicit case with
empty positionals), put it in front of the axis layers and merge each product
tuple. -/
def augmented_test_cases (f : FuncState) : List PyDict :=
  let additional_arguments := f.tc_additional_arguments.getD []
  let original_test_cases :=
    match f.tc_test_cases with
    | some tcs => tcs.reverse
    | none => [[("__positionals", DictVal.vlist [])]]
  (pyProduct (original_test_cases :: additional_arguments)).map merge_dicts

/-- Method `TestExpander.__call__` (tc_decorator.py lines 22-42): consume and delete
both layer stacks, expand, materialize.  Returns the created units and the
state in which the function object is left. -/
def TestExpander.call (desc : String) (tags : List String) (f : FuncState) :
    List TestUnit × FuncState :=
  let cleared : FuncState :=
    { f with tc_test_cases := none, tc_additional_arguments := none }
  _create_functions_from_testcases cleared (augmented_test_cases f) desc tags

/-- Method `TestCases.__init__` (tc_decorator.py lines 110-112): keyword arguments
plus the positional arguments stored under the reserved key. -/
def TestCases.params (args : List Val) (kwargs : PyDict) : PyDict :=
  dictSet kwargs "__positionals" (DictVal.vlist args)

/-- Method `OptionArguments.__init__` (tc_decorator.py lines 92-100): either explicit
alternative dicts, or exactly one keyword whose value is expanded into one
single-key dict per candidate; anything else raises `ValueError`. -/
def OptionArguments.init : List PyDict → List (String × List DictVal) →
    Except String (List PyDict)
  | a :: alts, _ => Except.ok (a :: alts)
  | [], [(nm, values)] => Except.ok (values.map (fun v => [(nm, v)]))
  | [], _ =>
      Except.error "options accept alternatives (alt) or one kwarg containing a list of values"

/-- One decorator application below the expander: `tc(...)`, `common(...)` or
`options(...)` (with the already-validated alternative list). -/
inductive Decoration : Type where
  | tc : List Val → PyDict → Decoration
  | common : PyDict → Decoration
  | options : List PyDict → Decoration
  deriving DecidableEq, Repr

/-- Methods `__call__` of `TestCases`, `CommonArguments` and `OptionArguments`
(tc_decorator.py lines 84-88, 102-106, 114-118): append one layer to the
matching stack, creating the attribute if needed. -/
def applyDecoration : Decoration → FuncState → FuncState
  | Decoration.tc args kwargs, f =>
      { f with tc_test_cases := some (f.tc_test_cases.getD [] ++ [TestCases.params args kwargs]) }
  | Decoration.common kwargs, f =>
      { f with tc_additional_arguments := some (f.tc_additional_arguments.getD [] ++ [[kwargs]]) }
  | Decoration.options opts, f =>
      { f with tc_additional_arguments := some (f.tc_additional_arguments.getD [] ++ [opts]) }

/-- Apply a textually ordered decorator list (first element = topmost line in
the source) the way Python does: bottom-up, innermost first. -/
def applyTextual : List Decoration → FuncState → FuncState
  | [], f => f
  | d :: ds, f => applyDecoration d (applyTextual ds f)

/-- A function carrying `tcsDecls` case declarations (textual order) and
`axes` option-axis declarations (textual order), built through the decorator
API on a bare function. -/
def decorate (tcsDecls : List (List Val × PyDict)) (axes : List (List PyDict)) :
    FuncState :=
  applyTextual
    (tcsDecls.map (fun p => Decoration.tc p.1 p.2)
      ++ axes.map (fun a => Decoration.options a)) {}


/-- Decode a little-endian decimal digit list. -/
def ofDigitsLE : List Nat → Nat
  | [] => 0
  | d :: ds => d + 10 * ofDigitsLE ds

lemma ofDigitsLE_append (l1 l2 : List Nat) :
    ofDigitsLE (l1 ++ l2) = ofDigitsLE l1 + 10 ^ l1.length * ofDigitsLE l2 := by
  induction l1 with
  | nil => simp [ofDigitsLE]
  | cons d t ih => simp [ofDigitsLE, ih, Nat.pow_succ]; ring

lemma ofDigitsLE_replicate_zero (k : Nat) : ofDigitsLE (List.replicate k 0) = 0 := by
  induction k with
  | zero => rfl
  | succ k ih => simpa [List.replicate_succ, ofDigitsLE] using ih

lemma ofDigitsLE_digitsFuel (fuel n : Nat) (h : n ≤ fuel) :
    ofDigitsLE (digitsFuel fuel n) = n := by
  induction fuel generalizing n with
  | zero =>
      have : n = 0 := Nat.le_zero.mp h
      subst this; rfl
  | succ fuel ih =>
      cases n with
      | zero => rfl
      | succ m =>
          have hdiv : (m + 1) / 10 ≤ fuel := by
            have := Nat.div_lt_self (Nat.succ_pos m) (by norm_num : 1 < 10)
            omega
          simp only [digitsFuel, ofDigitsLE, ih _ hdiv]
          exact Nat.mod_add_div (m + 1) 10

lemma digitsFuel_lt_ten (fuel n : Nat) : ∀ d ∈ digitsFuel fuel n, d < 10 := by
  induction fuel generalizing n with
  | zero => cases n <;> simp [digitsFuel]
  | succ fuel ih =>
      cases n with
      | zero => simp [digitsFuel]
      | succ m =>
          intro d hd
          simp only [digitsFuel, List.mem_cons] at hd
          rcases hd with hd | hd
          · subst hd; exact Nat.mod_lt _ (by norm_num)
          · exact ih _ d hd

lemma decode_pad3Digits (n : Nat) : ofDigitsLE (pad3Digits n).reverse = n := by
  unfold pad3Digits
  rw [List.reverse_append, List.reverse_reverse, List.reverse_replicate]
  rw [ofDigitsLE_append, ofDigitsLE_replicate_zero]
  simpa [digitsLE] using ofDigitsLE_digitsFuel n n le_rfl

lemma pad3Digits_injective : Function.Injective pad3Digits := by
  intro m n h
  have hm := decode_pad3Digits m
  have hn := decode_pad3Digits n
  rw [h] at hm
  exact hm.symm.trans hn

lemma pad3Digits_lt_ten (n : Nat) : ∀ d ∈ pad3Digits n, d < 10 := by
  intro d hd
  unfold pad3Digits at hd
  rcases List.mem_append.mp hd with h | h
  · have := List.eq_of_mem_replicate h; omega
  · exact digitsFuel_lt_ten n n d (List.mem_reverse.mp h)

lemma digitChar_inj_lt : ∀ a, a < 10 → ∀ b, b < 10 → digitChar a = digitChar b → a = b := by
  decide

lemma map_digitChar_inj (l1 : List Nat) : ∀ l2 : List Nat, (∀ d ∈ l1, d < 10) →
    (∀ d ∈ l2, d < 10) → l1.map digitChar = l2.map digitChar → l1 = l2 := by
  induction l1 with
  | nil => intro l2 _ _ h; cases l2 <;> simp_all
  | cons a t1 ih =>
      intro l2 h1 h2 h
      cases l2 with
      | nil => simp at h
      | cons b t2 =>
          simp only [List.map_cons, List.cons.injEq] at h
          have ha := h1 a (List.mem_cons_self a t1)
          have hb := h2 b (List.mem_cons_self b t2)
          have hab : a = b := digitChar_inj_lt a ha b hb h.1
          subst hab
          have := ih t2 (fun d hd => h1 d (List.mem_cons_of_mem _ hd))
            (fun d hd => h2 d (List.mem_cons_of_mem _ hd)) h.2
          rw [this]

lemma pad3_injective : Function.Injective pad3 := by
  intro m n h
  apply pad3Digits_injective
  apply map_digitChar_inj _ _ (pad3Digits_lt_ten m) (pad3Digits_lt_ten n)
  simpa [pad3] using congrArg String.data h

lemma data_append_eq (a b : String) : (a ++ b).data = a.data ++ b.data := rfl

lemma append_left_cancel_str {s a b : String} (h : s ++ a = s ++ b) : a = b := by
  have hd : s.data ++ a.data = s.data ++ b.data := by
    have := congrArg String.data h
    simpa [data_append_eq] using this
  have hab : a.data = b.data := List.append_cancel_left hd
  cases a; cases b; exact congrArg String.mk hab

lemma get_custom_name_inj {d : String} {i j : Nat}
    (h : get_custom_name d i = get_custom_name d j) : i = j := by
  unfold get_custom_name at h
  exact pad3_injective (append_left_cancel_str h)

/-- The rightmost binding of `k` in one dict (later entries of an update
source overwrite earlier ones). -/
def dictGetLast : PyDict → String → Option DictVal
  | [], _ => none
  | (k0, v0) :: rest, k =>
      match dictGetLast rest k with
      | some v => some v
      | none => if k0 = k then some v0 else none

/-- The value `k` receives from a list of dict layers merged left to right:
the rightmost layer that binds `k` wins. -/
def lastLayerGet : List PyDict → String → Option DictVal
  | [], _ => none
  | d :: ds, k =>
      match lastLayerGet ds k with
      | some v => some v
      | none => dictGetLast d k

lemma dictGet_dictSet (d : PyDict) (k0 k : String) (v0 : DictVal) :
    dictGet (dictSet d k0 v0) k = if k0 = k then some v0 else dictGet d k := by
  induction d with
  | nil => by_cases h : k0 = k <;> simp [dictSet, dictGet, h]
  | cons kv rest ih =>
      obtain ⟨k1, v1⟩ := kv
      by_cases h1 : k1 = k0
      · subst h1
        by_cases h2 : k1 = k <;> simp [dictSet, dictGet, h2]
      · by_cases h2 : k1 = k
        · subst h2
          have h3 : ¬ k0 = k1 := fun hh => h1 hh.symm
          simp [dictSet, dictGet, h1, h3]
        · simp [dictSet, dictGet, h1, h2, ih]

lemma dictGet_dictUpdate (dst src : PyDict) (k : String) :
    dictGet (dictUpdate dst src) k =
      match dictGetLast src k with
      | some v => some v
      | none => dictGet dst k := by
  induction src generalizing dst with
  | nil => rfl
  | cons kv rest ih =>
      obtain ⟨k0, v0⟩ := kv
      show dictGet (dictUpdate (dictSet dst k0 v0) rest) k = _
      rw [ih]
      cases hrest : dictGetLast rest k with
      | some v => simp [dictGetLast, hrest]
      | none =>
          simp only [dictGetLast, hrest, dictGet_dictSet]
          by_cases h : k0 = k <;> simp [h]

lemma dictGet_foldl_update (ds : List PyDict) (acc : PyDict) (k : String) :
    dictGet (ds.foldl dictUpdate acc) k =
      match lastLayerGet ds k with
      | some v => some v
      | none => dictGet acc k := by
  induction ds generalizing acc with
  | nil => rfl
  | cons d rest ih =>
      show dictGet (rest.foldl dictUpdate (dictUpdate acc d)) k = _
      rw [ih]
      cases hrest : lastLayerGet rest k with
      | some v => simp [lastLayerGet, hrest]
      | none => simp only [lastLayerGet, hrest, dictGet_dictUpdate]

lemma dictGet_merge_dicts (ds : List PyDict) (k : String) :
    dictGet (merge_dicts ds) k = lastLayerGet ds k := by
  unfold merge_dicts
  rw [dictGet_foldl_update]
  cases h : lastLayerGet ds k <;> simp [dictGet]

lemma pyProduct_length {α : Type} (gs : List (List α)) :
    (pyProduct gs).length = (gs.map List.length).prod := by
  induction gs with
  | nil => rfl
  | cons g gs ih =>
      simp only [pyProduct, List.length_flatMap, List.map_cons, List.prod_cons]
      calc (List.map (List.length ∘ fun x => (pyProduct gs).map (fun t => x :: t)) g).sum
          = (List.map (fun _ => (pyProduct gs).length) g).sum := by
            congr 1
            apply List.map_congr_left
            intro x hx
            simp
        _ = g.length * (pyProduct gs).length := by
            rw [List.map_const', List.sum_replicate, smul_eq_mul]
        _ = g.length * (gs.map List.length).prod := by rw [ih]

lemma flatMap_const_nil {α β : Type} (g : List α) :
    (g.flatMap (fun _ => ([] : List β))) = [] := by
  induction g <;> simp_all

lemma pyProduct_of_mem_nil {α : Type} {gs : List (List α)} (h : [] ∈ gs) :
    pyProduct gs = [] := by
  induction gs with
  | nil => cases h
  | cons g gs ih =>
      rcases List.mem_cons.mp h with h1 | h1
      · rw [pyProduct, ← h1]
        simp
      · simp [pyProduct, ih h1, flatMap_const_nil]

lemma applyTextual_append (l1 l2 : List Decoration) (s : FuncState) :
    applyTextual (l1 ++ l2) s = applyTextual l1 (applyTextual l2 s) := by
  induction l1 with
  | nil => rfl
  | cons d ds ih => simp [applyTextual, ih]

lemma applyTextual_options_map (axes : List (List PyDict)) (s : FuncState) :
    applyTextual (axes.map (fun a => Decoration.options a)) s =
      { s with tc_additional_arguments :=
          if axes.isEmpty then s.tc_additional_arguments
          else some (s.tc_additional_arguments.getD [] ++ axes.reverse) } := by
  induction axes with
  | nil => rfl
  | cons a rest ih =>
      simp only [List.map_cons, applyTextual, ih, applyDecoration]
      cases rest with
      | nil => simp
      | cons b t => simp

lemma applyTextual_tc_map (tcs : List (List Val × PyDict)) (s : FuncState) :
    applyTextual (tcs.map (fun p => Decoration.tc p.1 p.2)) s =
      { s with tc_test_cases :=
          if tcs.isEmpty then s.tc_test_cases
          else some (s.tc_test_cases.getD [] ++ (tcs.map (fun p => TestCases.params p.1 p.2)).reverse) } := by
  induction tcs with
  | nil => rfl
  | cons p rest ih =>
      simp only [List.map_cons, applyTextual, ih, applyDecoration]
      cases rest with
      | nil => simp
      | cons q t => simp

lemma decorate_eq (tcs : List (List Val × PyDict)) (axes : List (List PyDict)) :
    decorate tcs axes =
      { tc_test_cases :=
          if tcs.isEmpty then none
          else some ((tcs.map (fun p => TestCases.params p.1 p.2)).reverse)
        tc_additional_arguments := if axes.isEmpty then none else some axes.reverse
        doc := none
        test_attr := none } := by
  unfold decorate
  rw [applyTextual_append, applyTextual_options_map, applyTextual_tc_map]
  cases tcs <;> cases axes <;> simp

lemma augmented_length_decorate (tcs : List (List Val × PyDict)) (axes : List (List PyDict)) :
    (augmented_test_cases (decorate tcs axes)).length =
      max tcs.length 1 * (axes.map List.length).prod := by
  rw [decorate_eq]
  unfold augmented_test_cases
  cases tcs with
  | nil =>
      cases axes with
      | nil => simp [pyProduct_length]
      | cons a rest =>
          simp [pyProduct_length, List.map_reverse, List.prod_reverse]
          ring
  | cons p ptl =>
      cases axes with
      | nil => simp [pyProduct_length]
      | cons a rest =>
          simp [pyProduct_length, List.map_reverse, List.prod_reverse]
          ring_nf

lemma call_names (desc : String) (tags : List String) (f : FuncState) :
    (TestExpander.call desc tags f).fst.map TestUnit.name =
      (List.range (augmented_test_cases f).length).map (get_custom_name desc) := by
  simp only [TestExpander.call, _create_functions_from_testcases,
    _create_function_from_testcase, List.map_map]
  rw [show ((fun u => TestUnit.name u) ∘ fun p : Nat × PyDict =>
        ({ name := get_custom_name desc p.1,
           doc := _, doc_attr := _, test_attr := _, tags := tags,
           positionals := getPositionals p.2,
           kwargs := dictRemove p.2 "__positionals" } : TestUnit)) =
      (get_custom_name desc) ∘ Prod.fst from rfl]
  rw [← List.map_map, List.enum_map_fst]

lemma call_names_nodup (desc : String) (tags : List String) (f : FuncState) :
    ((TestExpander.call desc tags f).fst.map TestUnit.name).Nodup := by
  rw [call_names]
  exact (List.nodup_range _).map (fun i j h => get_custom_name_inj h)

lemma enum_map_snd_comp {α β : Type} (l : List α) (g : α → β) :
    l.enum.map (fun p => g p.2) = l.map g := by
  rw [show (fun p : Nat × α => g p.2) = g ∘ Prod.snd from rfl]
  rw [← List.map_map, List.enum_map_snd]

lemma call_invoke_map (desc : String) (tags : List String) (f : FuncState) (r : List Val) :
    (TestExpander.call desc tags f).fst.map (fun u => u.invoke r) =
      (augmented_test_cases f).map
        (fun m => (r ++ getPositionals m, dictRemove m "__positionals")) := by
  simp only [TestExpander.call, _create_functions_from_testcases,
    _create_function_from_testcase, TestUnit.invoke, List.map_map]
  exact enum_map_snd_comp (augmented_test_cases f)
    (fun m => (r ++ getPositionals m, dictRemove m "__positionals"))

lemma flatMap_singleton_eq_map {α β : Type} (l : List α) (f : α → β) :
    l.flatMap (fun x => [f x]) = l.map f := by
  induction l <;> simp_all

lemma pyProduct_three {α : Type} (a b c : List α) :
    pyProduct [a, b, c] =
      a.flatMap (fun x => b.flatMap (fun y => c.map (fun z => [x, y, z]))) := by
  simp only [pyProduct]
  simp only [List.map_flatMap, List.map_map, List.flatMap_map, List.map_cons,
    List.map_nil, Function.comp, flatMap_singleton_eq_map]
  rfl

lemma augmented_two_axes (tcs axB axT : List PyDict) :
    augmented_test_cases
        { tc_test_cases := some tcs, tc_additional_arguments := some [axB, axT] } =
      tcs.reverse.flatMap
        (fun c => axB.flatMap (fun b => axT.map (fun t => merge_dicts [c, b, t]))) := by
  unfold augmented_test_cases
  simp only [Option.getD_some]
  rw [pyProduct_three]
  simp only [List.map_flatMap, List.map_map]
  rfl

/-- Claim C1, counterexample: with zero declared cases and one declared axis
of two alternatives the expansion yields 2 units, while the claimed formula
C × A1 demands 0 × 2 = 0 for C = 0. -/
theorem c1_counterexample :
    (TestExpander.call "d" []
        (decorate []
          [[[("a", DictVal.scalar (Val.vint 1))], [("a", DictVal.scalar (Val.vint 2))]]])).fst.length = 2
    ∧ (List.length ([] : List (List Val × PyDict))) * 2 = 0
    ∧ (2 : Nat) ≠ 0 := by
  refine ⟨by decide, rfl, by decide⟩

/-- Claim C1 (amended): expansion over a function built with `tcsDecls` case
declarations and `axes` option-axis declarations yields
`max C 1 × A1 × … × An` units (zero declared cases act as one implicit case),
the generated names are pairwise distinct within the batch, and with zero
cases and zero axes the single unit produced forwards exactly the
runner-supplied positionals and no keyword arguments to the original
implementation. -/
theorem c1_count_distinct_names (tcsDecls : List (List Val × PyDict))
    (axes : List (List PyDict)) (desc : String) (tags : List String) (r : List Val) :
    (TestExpander.call desc tags (decorate tcsDecls axes)).fst.length
        = max tcsDecls.length 1 * (axes.map List.length).prod
    ∧ ((TestExpander.call desc tags (decorate tcsDecls axes)).fst.map TestUnit.name).Nodup
    ∧ (TestExpander.call desc tags (decorate [] [])).fst.map (fun u => u.invoke r) = [(r, [])] := by
  refine ⟨?_, call_names_nodup desc tags _, ?_⟩
  · simp only [TestExpander.call, _create_functions_from_testcases, List.length_map,
      List.enum_length]
    exact augmented_length_decorate tcsDecls axes
  · rw [call_invoke_map]
    simp [augmented_test_cases, decorate, applyTextual, pyProduct, merge_dicts,
      dictUpdate, dictSet, getPositionals, dictGet, dictRemove]

/-- Claim C2: in a merged product tuple `[case] ++ axis layers`, a key bound
by the case and bound again by a later axis layer resolves to the axis value:
the merge is left-to-right and later layers overwrite same-named earlier
values. -/
theorem c2_axis_overrides_case (c : PyDict) (ls : List PyDict) (k : String)
    (v1 v2 : DictVal) (hcase : dictGet c k = some v1)
    (haxis : lastLayerGet ls k = some v2) :
    dictGet (merge_dicts (c :: ls)) k = some v2 := by
  rw [dictGet_merge_dicts]
  simp [lastLayerGet, haxis]

/-- Witness for C2 at the example of the claim: case declares val = 1, the
chosen axis alternative declares val = 2, and the merged case carries 2. -/
theorem c2_witness :
    dictGet [("val", DictVal.scalar (Val.vint 1))] "val" = some (DictVal.scalar (Val.vint 1))
    ∧ lastLayerGet [[("val", DictVal.scalar (Val.vint 2))]] "val"
        = some (DictVal.scalar (Val.vint 2))
    ∧ dictGet (merge_dicts [[("val", DictVal.scalar (Val.vint 1))],
        [("val", DictVal.scalar (Val.vint 2))]]) "val" = some (DictVal.scalar (Val.vint 2)) :=
  ⟨by decide, by decide,
    c2_axis_overrides_case [("val", DictVal.scalar (Val.vint 1))]
      [[("val", DictVal.scalar (Val.vint 2))]] "val"
      (DictVal.scalar (Val.vint 1)) (DictVal.scalar (Val.vint 2))
      (by decide) (by decide)⟩

/-- Claim C3: the expansion order is deterministic: the case list (already
reversed back to declaration order) is the outermost loop, so the case varies
slowest, and the last product group — the axis applied last, i.e. the
textually topmost axis decorator — varies fastest; in the two-case one-axis
example the four units appear exactly in the claimed order. -/
theorem c3_product_order (tcs axB axT : List PyDict) :
    augmented_test_cases
        { tc_test_cases := some tcs, tc_additional_arguments := some [axB, axT] } =
      tcs.reverse.flatMap
        (fun c => axB.flatMap (fun b => axT.map (fun t => merge_dicts [c, b, t])))
    ∧ (TestExpander.call "login with valid and invalid tokens" []
          (applyTextual
            [Decoration.tc [Val.vstr "valid"] [],
             Decoration.tc [Val.vstr "invalid"] [],
             Decoration.options [[("strict", DictVal.scalar (Val.vbool true))],
                                 [("strict", DictVal.scalar (Val.vbool false))]]] {})).fst.map
          (fun u => (u.positionals, u.kwargs)) =
        [([Val.vstr "valid"], [("strict", DictVal.scalar (Val.vbool true))]),
         ([Val.vstr "valid"], [("strict", DictVal.scalar (Val.vbool false))]),
         ([Val.vstr "invalid"], [("strict", DictVal.scalar (Val.vbool true))]),
         ([Val.vstr "invalid"], [("strict", DictVal.scalar (Val.vbool false))])] :=
  ⟨augmented_two_axes tcs axB axT, by decide⟩

/-- Claim C4, evaluating the code at the failing input: with description `d`,
one implicit case and an original doc string, the generated
description/index/placeholder text (with the original doc appended in
parentheses) is assigned to the stray `__doc` attribute — tc_decorator.py
line 72 writes `new_function.__doc`, not `__doc__` — while the actual
doc string stays the wraps-copied original doc string. -/
theorem c4_doc_goes_to_wrong_attribute :
    (TestExpander.call "d" [] { doc := some "orig doc" }).fst.map TestUnit.doc
        = [some "orig doc"]
    ∧ (TestExpander.call "d" [] { doc := some "orig doc" }).fst.map TestUnit.doc_attr
        = ["d (000/1) parameters:  (orig doc)"] :=
  ⟨by decide, by decide⟩

/-- Claim C5, counterexample: the generated name is not
`test-prefix ++ sanitized description ++ "_case_" ++ padded index`; at the
example description of the spec and index 0 the code emits a double underscore
before `case_000`, because the format string in `get_custom_name_func` is
`__case_`. -/
theorem c5_counterexample :
    get_custom_name "login with valid and invalid tokens" 0
        ≠ "test_" ++ to_safe_name "login with valid and invalid tokens" ++ "_case_" ++ pad3 0
    ∧ get_custom_name "login with valid and invalid tokens" 0
        = "test_login_with_valid_and_invalid_tokens__case_000" :=
  ⟨by decide, by decide⟩

/-- Claim C5 (amended): the generated name is the discovery prefix `test_`
(added exactly when the description does not already start with `test`),
then the sanitized description, then the literal `__case_` marker — one
underscore more than the claim states — then the zero-padded 3-digit index;
names are unique within a batch because the index injects into the name. -/
theorem c5_name_format (d : String) (i j : Nat) :
    get_custom_name d i =
      (if descHasTestPre d then "" else "test_") ++ to_safe_name d ++ "__case_" ++ pad3 i
    ∧ (get_custom_name d i = get_custom_name d j → i = j) :=
  ⟨rfl, fun h => get_custom_name_inj h⟩

/-- Witness for C5 at the example description of the spec and index 0. -/
theorem c5_witness :
    get_custom_name "login with valid and invalid tokens" 0 =
      (if descHasTestPre "login with valid and invalid tokens" then "" else "test_")
        ++ to_safe_name "login with valid and invalid tokens" ++ "__case_" ++ pad3 0
    ∧ (0 : Nat) = 0 :=
  ⟨(c5_name_format "login with valid and invalid tokens" 0 0).1,
   (c5_name_format "login with valid and invalid tokens" 0 0).2 rfl⟩

/-- Claim C6: every materialized unit invoked with runner-supplied positional
arguments calls the original implementation with those positionals first,
then the case-declared positional values in declaration order, and the
remaining merged named values — with the internal positionals entry removed —
as keyword arguments. -/
theorem c6_invocation (desc : String) (tags : List String) (f : FuncState) (r : List Val) :
    (TestExpander.call desc tags f).fst.map (fun u => u.invoke r) =
      (augmented_test_cases f).map
        (fun m => (r ++ getPositionals m, dictRemove m "__positionals"))
    ∧ (TestExpander.call "login" []
          (applyTextual
            [Decoration.tc [Val.vstr "first", Val.vint 1]
               [("opt", DictVal.scalar (Val.vbool true))],
             Decoration.common [("token", DictVal.scalar (Val.vstr "tok"))]] {})).fst.map
          (fun u => u.invoke [Val.vstr "self"]) =
        [([Val.vstr "self", Val.vstr "first", Val.vint 1],
          [("opt", DictVal.scalar (Val.vbool true)),
           ("token", DictVal.scalar (Val.vstr "tok"))])] :=
  ⟨call_invoke_map desc tags f r, by decide⟩

/-- Claim C7: after an expansion both layer stacks of the function are
cleared, so any further decoration behaves exactly as on a clean function
with the same doc; the shared-implementation double expansion of the repository
produces two batches whose generated name sets are disjoint. -/
theorem c7_stacks_cleared (desc : String) (tags : List String) (f : FuncState)
    (ds : List Decoration) :
    (TestExpander.call desc tags f).snd.tc_test_cases = none
    ∧ (TestExpander.call desc tags f).snd.tc_additional_arguments = none
    ∧ applyTextual ds (TestExpander.call desc tags f).snd =
        applyTextual ds { doc := f.doc, test_attr := some false }
    ∧ (TestExpander.call "position in digits" []
          (applyTextual [Decoration.tc [Val.vstr "1"] [],
            Decoration.tc [Val.vstr "2"] []] {})).fst.map TestUnit.name =
        ["test_position_in_digits__case_000", "test_position_in_digits__case_001"]
    ∧ (TestExpander.call "position in letters" []
          (applyTextual [Decoration.tc [Val.vstr "first"] [],
            Decoration.tc [Val.vstr "second"] []]
            (TestExpander.call "position in digits" []
              (applyTextual [Decoration.tc [Val.vstr "1"] [],
                Decoration.tc [Val.vstr "2"] []] {})).snd)).fst.map TestUnit.name =
        ["test_position_in_letters__case_000", "test_position_in_letters__case_001"] :=
  ⟨rfl, rfl, rfl, by decide, by decide⟩

/-- Claim C8: after an expansion the `__test__` flag of the original
implementation is false, and every materialized unit carries a true flag
(copied by wraps while the original flag was transiently true during the
registration loop). -/
theorem c8_discoverability (desc : String) (tags : List String) (f : FuncState) :
    (TestExpander.call desc tags f).snd.test_attr = some false
    ∧ ∀ u ∈ (TestExpander.call desc tags f).fst, u.test_attr = some true := by
  refine ⟨rfl, ?_⟩
  intro u hu
  simp only [TestExpander.call, _create_functions_from_testcases, List.mem_map] at hu
  obtain ⟨p, hp, rfl⟩ := hu
  rfl

/-- Witness for C8 on a bare function: its single unit is discoverable and
the template ends non-discoverable. -/
theorem c8_witness :
    (TestExpander.call "d" [] {}).snd.test_attr = some false
    ∧ ((TestExpander.call "d" [] {}).fst.headI).test_attr = some true :=
  ⟨(c8_discoverability "d" [] {}).1,
   (c8_discoverability "d" [] {}).2 _ (by decide)⟩

/-- Claim C9: an option axis built from zero explicit alternatives and a
number of keyword arguments different from one raises the validation error at
declaration time; one or more explicit alternatives, or exactly one keyword
whose value is an iterable of candidates, construct successfully. -/
theorem c9_axis_validation :
    (∀ kwargs : List (String × List DictVal), kwargs.length ≠ 1 →
        OptionArguments.init [] kwargs =
          Except.error
            "options accept alternatives (alt) or one kwarg containing a list of values")
    ∧ (∀ (a : PyDict) (alts : List PyDict) (kwargs : List (String × List DictVal)),
        OptionArguments.init (a :: alts) kwargs = Except.ok (a :: alts))
    ∧ (∀ (nm : String) (values : List DictVal),
        OptionArguments.init [] [(nm, values)] =
          Except.ok (values.map (fun v => [(nm, v)]))) := by
  refine ⟨?_, fun a alts kwargs => rfl, fun nm values => rfl⟩
  intro kwargs h
  match kwargs with
  | [] => rfl
  | [(nm, values)] => exact absurd rfl h
  | x :: y :: t => rfl

/-- Witness for C9 at the example of the spec: zero alternatives and zero
keywords raise. -/
theorem c9_witness :
    (List.length ([] : List (String × List DictVal)) ≠ 1)
    ∧ OptionArguments.init ([] : List PyDict) ([] : List (String × List DictVal)) =
        Except.error
          "options accept alternatives (alt) or one kwarg containing a list of values" :=
  ⟨by decide, (c9_axis_validation).1 [] (by decide)⟩

/-- Claim C10: an axis declared with exactly one keyword whose value is an
empty iterable constructs successfully as a zero-alternative axis, and an
expansion whose axis stack contains an empty axis produces zero units while
still consuming and clearing both layer stacks. -/
theorem c10_empty_axis (nm : String) (desc : String) (tags : List String)
    (f : FuncState) (h : [] ∈ f.tc_additional_arguments.getD []) :
    OptionArguments.init [] [(nm, ([] : List DictVal))] = Except.ok []
    ∧ (TestExpander.call desc tags f).fst = []
    ∧ (TestExpander.call desc tags f).snd.tc_test_cases = none
    ∧ (TestExpander.call desc tags f).snd.tc_additional_arguments = none := by
  refine ⟨rfl, ?_, rfl, rfl⟩
  have hprod : pyProduct ((match f.tc_test_cases with
      | some tcs => tcs.reverse
      | none => [[("__positionals", DictVal.vlist [])]]) ::
        f.tc_additional_arguments.getD []) = ([] : List (List PyDict)) :=
    pyProduct_of_mem_nil (List.mem_cons_of_mem _ h)
  simp [TestExpander.call, _create_functions_from_testcases, augmented_test_cases, hprod]

/-- Witness for C10: a function whose only axis has zero alternatives
expands to zero units. -/
theorem c10_witness :
    ([] ∈ ({ tc_additional_arguments := some [[]] } : FuncState).tc_additional_arguments.getD [])
    ∧ (TestExpander.call "d" []
        ({ tc_additional_arguments := some [[]] } : FuncState)).fst = [] :=
  ⟨by decide, (c10_empty_axis "a" "d" [] _ (by decide)).2.1⟩

end TcDecorator
